import Mathlib

/-!
Shallow embedding of the Decepti-NOT propaganda analysis engine
(`src/server/utils.py`): content normalization (`extract_article_content`),
the pattern heuristic scorer, the Gemini response parsing
(`analyze_with_gemini`), score fusion and report assembly
(`analyze_propaganda`).

Python strings are modelled as `List Char` (code-point indexed, as Python
slices are), Python `int()` on non-negative floats as a floor over exact
rationals, and Python `re.finditer` over the word-bounded alternation
patterns of `propaganda_indicators` as an explicit left-to-right scanner.
-/

namespace DeceptiNot

/-- Python whitespace for `str.split()` / `str.strip()` (ASCII set). -/
def pyIsSpace (c : Char) : Bool :=
  c = ' ' || c = '\t' || c = '\n' || c = '\r' || c = '\x0b' || c = '\x0c'

/-- Python `str.strip()`. -/
def pyStrip (l : List Char) : List Char :=
  ((l.dropWhile pyIsSpace).reverse.dropWhile pyIsSpace).reverse

/-- Auxiliary word counter: `inw` records whether we are inside a word. -/
def wordsAux : List Char → Bool → Nat
  | [], _ => 0
  | c :: rest, inw =>
    if pyIsSpace c then wordsAux rest false
    else (if inw then 0 else 1) + wordsAux rest true

/-- Python word count `len(text.split())`: number of maximal non-whitespace runs. -/
def wordCount (l : List Char) : Nat := wordsAux l false

/-- Python slice `l[a:b]` for `0 ≤ a ≤ b` (clamped at the ends). -/
def slice (l : List Char) (a b : Nat) : List Char := (l.drop a).take (b - a)

/-- Python `str.lower()` (ASCII). -/
def lowerStr (l : List Char) : List Char := l.map Char.toLower

/-- Python regex `\w` (ASCII part: letters, digits, underscore). -/
def isWordChar (c : Char) : Bool := c.isAlphanum || c = '_'

/-- Whether the character at index `i` is a word character (out of range:
no). -/
def wordAt (l : List Char) (i : Nat) : Bool := ((l.get? i).map isWordChar).getD false

/-- Regex `\b` at position `i` of `l`: between `l[i-1]` and `l[i]`. -/
def boundaryAt (l : List Char) (i : Nat) : Bool :=
  (if i = 0 then false else wordAt l (i - 1)) != wordAt l i

/-- Trailing `\b` test for alternative `w` matched at the head of suffix
`suf`: boundary between the last char of `w` and the following char. -/
def endBoundary (w suf : List Char) : Bool :=
  (((w.getLast?).map isWordChar).getD false) != ((((suf.drop w.length).head?).map isWordChar).getD false)

/-- Try the alternatives of a `\b(a1|a2|...)\b` pattern at the head of
suffix `suf` (the leading `\b` is checked by the caller); regex alternation
is ordered, first success wins. -/
def tryAlts (alts : List (List Char)) (suf : List Char) : Option (List Char) :=
  alts.find? fun w => w.isPrefixOf suf && endBoundary w suf

/-- The `re.finditer` scanner: `prev` is the character before the current
position `i`, `suf` the remaining text; yields `(start, matched)` pairs of
non-overlapping matches, leftmost first, continuing after each match. -/
def finditerAux (alts : List (List Char)) : Nat → Option Char → List Char → Nat →
    List (Nat × List Char)
  | 0, _, _, _ => []
  | _ + 1, _, [], _ => []
  | fuel + 1, prev, c :: rest, i =>
    if ((prev.map isWordChar).getD false) != isWordChar c then
      match tryAlts alts (c :: rest) with
      | some w =>
        (i, w) :: finditerAux alts fuel ((c :: rest).get? (w.length - 1))
          ((c :: rest).drop w.length) (i + w.length)
      | none => finditerAux alts fuel (some c) rest (i + 1)
    else finditerAux alts fuel (some c) rest (i + 1)

/-- All matches of `\b(alts)\b` in `l`, as `(start, matched)` pairs. -/
def finditer (alts : List (List Char)) (l : List Char) : List (Nat × List Char) :=
  finditerAux alts (l.length + 1) none l 0

/-- One recorded pattern match (`matched_text`, `context`, `position`). -/
structure MatchEntry where
  matched_text : List Char
  context : List Char
  position : Nat
deriving DecidableEq, Repr

/-- The ellipsis marker wrapped around every context window. -/
def dots : List Char := ['.', '.', '.']

/-- Context window: 50 characters before and after the match, clamped to
the text (Python: `text_content[max(0, start-50):min(len, end+50)]`),
wrapped in `...`. -/
def contextOf (orig : List Char) (s e : Nat) : List Char :=
  dots ++ slice orig (s - 50) (min orig.length (e + 50)) ++ dots

/-- The entries recorded for one indicator category: matches are found on
the lowered text, `matched_text` is `match.group()` (a slice of the lowered
text), the context is cut from the original text. -/
def entriesFor (orig : List Char) (alts : List (List Char)) : List MatchEntry :=
  (finditer alts (lowerStr orig)).map fun p =>
    ⟨slice (lowerStr orig) p.1 (p.1 + p.2.length), contextOf orig p.1 (p.1 + p.2.length), p.1⟩

/-- The `propaganda_indicators` registry, in source order; each pattern
`\b(a1|a2|...)\b` is given by its ordered list of literal alternatives. -/
def propaganda_indicators : List (String × List (List Char)) :=
  [("emotional_language",
    ["shocking".data, "outrageous".data, "terrible".data, "amazing".data,
     "incredible".data, "horrific".data, "devastating".data, "mind-blowing".data]),
   ("absolutist_terms",
    ["always".data, "never".data, "everyone".data, "nobody".data, "all".data,
     "none".data, "every single".data, "absolutely".data]),
   ("unverified_claims",
    ["sources say".data, "reportedly".data, "allegedly".data, "claims".data,
     "according to some".data, "many believe".data, "experts suggest".data]),
   ("loaded_words",
    ["regime".data, "puppet".data, "radical".data, "extremist".data, "terrorist".data,
     "freedom fighter".data, "patriot".data, "traitor".data]),
   ("fear_mongering",
    ["crisis".data, "catastrophe".data, "disaster".data, "threat".data, "danger".data,
     "emergency".data, "chaos".data, "collapse".data]),
   ("oversimplification",
    ["simply".data, "obviously".data, "clearly".data, "undoubtedly".data,
     "without question".data, "naturally".data]),
   ("ad_hominem",
    ["stupid".data, "ignorant".data, "foolish".data, "incompetent".data,
     "corrupt".data, "evil".data, "wicked".data]),
   ("bandwagon",
    ["everyone knows".data, "popular opinion".data, "majority believes".data,
     "trending".data, "viral".data, "mainstream".data]),
   ("false_dichotomy",
    ["either".data, "or".data, "versus".data, "vs.".data, "against".data,
     "choose between".data]),
   ("conspiracy_terms",
    ["conspiracy".data, "cover-up".data, "secret agenda".data, "hidden truth".data,
     "real story".data, "what they don\x27t want you to know".data])]

/-- The `detailed_matches` dict: built in registry order, a category gets a
key only when it has at least one match. -/
def detailedMatches (orig : List Char) : List (String × List MatchEntry) :=
  propaganda_indicators.foldl
    (fun acc p =>
      if entriesFor orig p.2 = [] then acc else acc ++ [(p.1, entriesFor orig p.2)]) []

/-- The `total_indicators` counter: sum of match counts over all categories. -/
def totalIndicators (orig : List Char) : Nat :=
  propaganda_indicators.foldl (fun acc p => acc + (finditer p.2 (lowerStr orig)).length) 0

/-- Python `int()` on an exact rational: truncation toward zero. -/
def pyTrunc (q : ℚ) : ℤ := if 0 ≤ q then ⌊q⌋ else ⌈q⌉

/-! ### IEEE-754 binary64 model

CPython evaluates the score arithmetic in binary64 floats. Every float
value is a rational, so floats are modelled as the exact rationals they
denote, and each arithmetic operation as the exact operation followed by
correct rounding to 53 significant bits, round-to-nearest ties-to-even
(the model idealizes the exponent as unbounded: no overflow or gradual
underflow). -/

/-- Bit length of a natural number (fuel-driven halving). -/
def bitLenAux : Nat → Nat → Nat
  | 0, _ => 0
  | _ + 1, 0 => 0
  | fuel + 1, n + 1 => bitLenAux fuel ((n + 1) / 2) + 1

/-- Bit length: for `n > 0` the unique `b` with `2^(b-1) ≤ n < 2^b`. -/
def bitLen (n : Nat) : Nat := bitLenAux n n

/-- The power `2^k` in ℚ for an integer `k`, computed through `Nat.pow`
(kernel-friendly; equal to the `zpow` by `pow2_eq`). -/
def pow2 (k : ℤ) : ℚ :=
  if 0 ≤ k then ((2 ^ k.toNat : ℕ) : ℚ) else 1 / ((2 ^ (-k).toNat : ℕ) : ℚ)

/-- Binary exponent of a positive rational: the unique `e` with
`2^e ≤ q < 2^(e+1)`. -/
def qexp (q : ℚ) : ℤ :=
  if pow2 ((bitLen q.num.natAbs : ℤ) - (bitLen q.den : ℤ)) ≤ q
  then (bitLen q.num.natAbs : ℤ) - (bitLen q.den : ℤ)
  else (bitLen q.num.natAbs : ℤ) - (bitLen q.den : ℤ) - 1

/-- Round to nearest integer, ties to even. -/
def roundEven (x : ℚ) : ℤ :=
  if x - ⌊x⌋ < 1 / 2 then ⌊x⌋
  else if 1 / 2 < x - ⌊x⌋ then ⌊x⌋ + 1
  else if ⌊x⌋ % 2 = 0 then ⌊x⌋ else ⌊x⌋ + 1

/-- The rational with numerator `n` and denominator 1 (kernel-friendly;
equal to the `Int.cast` by `intToRat_eq`). -/
def intToRat (n : ℤ) : ℚ := ⟨n, 1, one_ne_zero, Nat.coprime_one_right _⟩

/-- Round a positive rational to 53 significant bits, ties to even. -/
def rndPos (q : ℚ) : ℚ :=
  intToRat (roundEven (q / pow2 (qexp q - 52))) * pow2 (qexp q - 52)

/-- Correct binary64 rounding of a rational (unbounded exponent). -/
def rnd (q : ℚ) : ℚ :=
  if q = 0 then 0 else if 0 < q then rndPos q else -rndPos (-q)

/-- Float division: exact quotient, correctly rounded. -/
def fdiv (a b : ℚ) : ℚ := rnd (a / b)

/-- Float multiplication: exact product, correctly rounded. -/
def fmul (a b : ℚ) : ℚ := rnd (a * b)

/-- Float addition: exact sum, correctly rounded. -/
def fadd (a b : ℚ) : ℚ := rnd (a + b)

/-- The binary64 value of the literal `0.4`. -/
def c04 : ℚ := rnd (2 / 5)

/-- The binary64 value of the literal `0.6`. -/
def c06 : ℚ := rnd (3 / 5)

/-- The `indicator_density` value `(total_indicators / words) * 100 if
words > 0 else 0`, evaluated as CPython does: correctly rounded float
division of the two ints, then a correctly rounded float product. -/
def indicatorDensity (orig : List Char) : ℚ :=
  if 0 < wordCount orig then
    fmul (fdiv (totalIndicators orig : ℚ) (wordCount orig : ℚ)) 100
  else 0

/-- The `pattern_score` value `min(int(indicator_density * 20), 100)` with
the product again evaluated in binary64. -/
def patternScore (orig : List Char) : Nat :=
  min (pyTrunc (fmul (indicatorDensity orig) 20)).toNat 100

/-! ### JSON values and strict parsing (Python `json.loads`) -/

/-- A parsed JSON value, as produced by Python `json.loads`. -/
inductive Json where
  | null
  | jbool (b : Bool)
  | num (q : ℚ)
  | str (s : List Char)
  | arr (xs : List Json)
  | obj (fields : List (List Char × Json))
deriving Repr

/-- JSON inter-token whitespace. -/
def jsonWs (c : Char) : Bool := c = ' ' || c = '\t' || c = '\n' || c = '\r'

/-- Skip JSON whitespace. -/
def skipWs (l : List Char) : List Char := l.dropWhile jsonWs

/-- Hexadecimal digit value. -/
def hexVal (c : Char) : Option Nat :=
  if '0' ≤ c ∧ c ≤ '9' then some (c.toNat - 48)
  else if 'a' ≤ c ∧ c ≤ 'f' then some (c.toNat - 87)
  else if 'A' ≤ c ∧ c ≤ 'F' then some (c.toNat - 55)
  else none

/-- Body of a JSON string after the opening quote: returns the decoded
characters and the rest of the input after the closing quote. Raw control
characters and bad escapes are rejected (strict mode). -/
def strBody : List Char → Option (List Char × List Char)
  | [] => none
  | '"' :: r => some ([], r)
  | '\\' :: r =>
    match r with
    | '"' :: r' => (strBody r').map fun p => ('"' :: p.1, p.2)
    | '\\' :: r' => (strBody r').map fun p => ('\\' :: p.1, p.2)
    | '/' :: r' => (strBody r').map fun p => ('/' :: p.1, p.2)
    | 'b' :: r' => (strBody r').map fun p => ('\x08' :: p.1, p.2)
    | 'f' :: r' => (strBody r').map fun p => ('\x0c' :: p.1, p.2)
    | 'n' :: r' => (strBody r').map fun p => ('\n' :: p.1, p.2)
    | 'r' :: r' => (strBody r').map fun p => ('\r' :: p.1, p.2)
    | 't' :: r' => (strBody r').map fun p => ('\t' :: p.1, p.2)
    | 'u' :: a :: b :: c :: d :: r' =>
      match hexVal a, hexVal b, hexVal c, hexVal d with
      | some x, some y, some z, some w =>
        (strBody r').map fun p => (Char.ofNat (((x * 16 + y) * 16 + z) * 16 + w) :: p.1, p.2)
      | _, _, _, _ => none
    | _ => none
  | c :: r => if c.toNat < 32 then none else (strBody r).map fun p => (c :: p.1, p.2)

/-- Decimal value of a digit list. -/
def digitsToNat (ds : List Char) : Nat := ds.foldl (fun a c => a * 10 + (c.toNat - 48)) 0

/-- Optional JSON fraction part `.digits`. -/
def parseFrac : List Char → Option (ℚ × List Char)
  | '.' :: r =>
    let fs := r.takeWhile Char.isDigit
    if fs.isEmpty then none
    else some ((digitsToNat fs : ℚ) / (10 : ℚ) ^ fs.length, r.dropWhile Char.isDigit)
  | l => some (0, l)

/-- Optional JSON exponent part `[eE][+-]?digits`, as a scale factor. -/
def parseExp : List Char → Option (ℚ × List Char)
  | c :: r =>
    if c = 'e' ∨ c = 'E' then
      let sr : Bool × List Char :=
        match r with
        | '+' :: r' => (false, r')
        | '-' :: r' => (true, r')
        | _ => (false, r)
      let es := sr.2.takeWhile Char.isDigit
      if es.isEmpty then none
      else some (if sr.1 then 1 / (10 : ℚ) ^ digitsToNat es else (10 : ℚ) ^ digitsToNat es,
                 sr.2.dropWhile Char.isDigit)
    else some (1, c :: r)
  | [] => some (1, [])

/-- JSON number: `-? int frac? exp?` with the leading-zero rule. A number
in integer form becomes a Python `int` (exact); one with a fraction or
exponent part becomes a Python `float`: the decimal value correctly
rounded to binary64. -/
def parseNum (l : List Char) : Option (Json × List Char) :=
  let sl : ℚ × List Char := match l with | '-' :: r => (-1, r) | _ => (1, l)
  let ds := sl.2.takeWhile Char.isDigit
  let r1 := sl.2.dropWhile Char.isDigit
  let isFloat : Bool :=
    r1.head? = some '.' || r1.head? = some 'e' || r1.head? = some 'E'
  if ds.isEmpty then none
  else if 1 < ds.length ∧ ds.head? = some '0' then none
  else
    (parseFrac r1).bind fun fp =>
      (parseExp fp.2).map fun ep =>
        (.num (if isFloat then rnd (sl.1 * ((digitsToNat ds : ℚ) + fp.1) * ep.1)
               else sl.1 * ((digitsToNat ds : ℚ) + fp.1) * ep.1), ep.2)

mutual

/-- Strict recursive-descent JSON value parser (fuel-bounded). -/
def parseVal : Nat → List Char → Option (Json × List Char)
  | 0, _ => none
  | fuel + 1, l =>
    match skipWs l with
    | 'n' :: 'u' :: 'l' :: 'l' :: r => some (.null, r)
    | 't' :: 'r' :: 'u' :: 'e' :: r => some (.jbool true, r)
    | 'f' :: 'a' :: 'l' :: 's' :: 'e' :: r => some (.jbool false, r)
    | '"' :: r => (strBody r).map fun p => (.str p.1, p.2)
    | '[' :: r =>
      match skipWs r with
      | ']' :: r' => some (.arr [], r')
      | l' => parseElems fuel l' []
    | c :: r =>
      if c = '\x7b' then
        match skipWs r with
        | c' :: r' => if c' = '\x7d' then some (.obj [], r') else parseMembers fuel (c' :: r') []
        | [] => none
      else parseNum (c :: r)
    | [] => none

/-- Array elements: value, then `,` (more elements, trailing comma
rejected) or `]`. -/
def parseElems : Nat → List Char → List Json → Option (Json × List Char)
  | 0, _, _ => none
  | fuel + 1, l, acc =>
    (parseVal fuel l).bind fun p =>
      match skipWs p.2 with
      | ',' :: r => parseElems fuel r (acc ++ [p.1])
      | ']' :: r => some (.arr (acc ++ [p.1]), r)
      | _ => none

/-- Object members: `"key" : value`, then `,` (more members, trailing
comma rejected) or the closing brace. -/
def parseMembers : Nat → List Char → List (List Char × Json) → Option (Json × List Char)
  | 0, _, _ => none
  | fuel + 1, l, acc =>
    match skipWs l with
    | '"' :: r =>
      (strBody r).bind fun kp =>
        match skipWs kp.2 with
        | ':' :: r2 =>
          (parseVal fuel r2).bind fun vp =>
            match skipWs vp.2 with
            | ',' :: r3 => parseMembers fuel r3 (acc ++ [(kp.1, vp.1)])
            | c :: r3 => if c = '\x7d' then some (.obj (acc ++ [(kp.1, vp.1)]), r3) else none
            | [] => none
        | _ => none
    | _ => none

end

/-- Python `json.loads`: strict parse of the whole string (trailing
whitespace allowed, anything else is "Extra data"). -/
def jsonLoads (s : String) : Option Json :=
  match parseVal (4 * s.data.length + 4) s.data with
  | some p => if (skipWs p.2).isEmpty then some p.1 else none
  | none => none

/-! ### Gemini response handling and report assembly -/

/-- Python truthiness of a parsed JSON value. -/
def jsonTruthy : Json → Bool
  | .null => false
  | .jbool b => b
  | .num q => decide (q ≠ 0)
  | .str s => !s.isEmpty
  | .arr xs => !xs.isEmpty
  | .obj fs => !fs.isEmpty

/-- Dict lookup for an object built by `json.loads`: on duplicate keys the
last value wins. -/
def lookupLast (fs : List (List Char × Json)) (k : List Char) : Option Json :=
  fs.foldl (fun acc p => if p.1 = k then some p.2 else acc) none

def plKey : List Char := "propaganda_likelihood".data
def dtKey : List Char := "detected_techniques".data
def scKey : List Char := "suggested_corrections".data
def oaKey : List Char := "overall_analysis".data

/-- Reading the likelihood, as in
`ai_analysis.get(..., pattern_score) * 0.6` on the `propaganda_likelihood`
key: `none` models the `TypeError` raised when the value is not a number
(caught by the surrounding `except`); a missing key defaults to the
pattern score; a Python `bool` multiplies as an `int`. -/
def getLikelihood (fs : List (List Char × Json)) (p : Nat) : Option ℚ :=
  match lookupLast fs plKey with
  | none => some (p : ℚ)
  | some (.num q) => some q
  | some (.jbool b) => some (bif b then 1 else 0)
  | some _ => none

/-- Python iteration over a value, as used by `list.extend`: `none` models
the uncaught `TypeError` on non-iterables. -/
def elementsOf : Json → Option (List Json)
  | .arr xs => some xs
  | .str s => some (s.map fun c => .str [c])
  | .obj fs => some (fs.map fun p => .str p.1)
  | _ => none

/-- Environment outcome seen by `analyze_with_gemini`: missing credential,
a collaborator fault (network/auth/timeout), or a textual response. -/
inductive GeminiEnv where
  | noKey
  | callFails
  | response (text : String)
deriving DecidableEq, Repr

/-- Model of `analyze_with_gemini`: absence on missing key, any raised
fault, empty response text, or strict JSON parse failure; otherwise the
parsed JSON. -/
def analyze_with_gemini : GeminiEnv → Option Json
  | .noKey => none
  | .callFails => none
  | .response t => if t.data.isEmpty then none else jsonLoads t

/-- The normalized content record consumed by `analyze_propaganda`
(fields read by key, with the empty string as default). -/
structure Content where
  text : List Char
  title : List Char
  author : List Char
  date : List Char
  source : List Char
deriving DecidableEq, Repr

/-- The response dict built by `analyze_propaganda`. -/
structure Report where
  title : List Char
  author : List Char
  date : List Char
  source : List Char
  word_count : Nat
  propaganda_score : ℤ
  detailed_matches : List (String × List MatchEntry)
  detected_techniques : List Json
  analysis : List Char
  correction : Option Json
deriving Repr

def analysisLow : List Char :=
  "This article appears to be factual and well-balanced. The reporting is objective and supported by verifiable sources.".data

def analysisMid (n : Nat) : List Char :=
  "This article shows some signs of potential bias. Found ".data ++ Nat.toDigits 10 n ++
    " different types of propaganda techniques.".data

def analysisHigh (n t : Nat) : List Char :=
  "High likelihood of biased content. Found ".data ++ Nat.toDigits 10 n ++
    " different propaganda techniques with ".data ++ Nat.toDigits 10 t ++ " total instances.".data

def fallbackMid : List Char :=
  "Consider consulting multiple sources for a more balanced perspective on this topic.".data

def fallbackHigh : List Char :=
  "For accurate information on this topic, please consult established fact-checking websites and verified news sources.".data

/-- The binary64 evaluation of `(pattern_score * 0.4) + (likelihood * 0.6)`:
each `int` operand is converted to float (correctly rounded, a no-op below
`2^53`), each product and the sum are correctly rounded. -/
def fuseVal (p : ℕ) (q : ℚ) : ℚ :=
  fadd (fmul (rnd (p : ℚ)) c04) (fmul (rnd q) c06)

/-- Lines 157-173 of `analyze_propaganda`: the fusion step, producing
`(final_score, additional_analysis, ai_correction)`. The `except
(AttributeError, TypeError)` arm leaves `final_score` at the pattern score
and resets the other two; `0.4` and `0.6` are the binary64 literals. -/
def fuseStep (p : Nat) (ai : Option Json) : ℤ × Json × Option Json :=
  match ai with
  | some j =>
    if jsonTruthy j then
      match j with
      | .obj fs =>
        match getLikelihood fs p with
        | some q =>
          (pyTrunc (fuseVal p q),
           (lookupLast fs dtKey).getD (.arr []),
           lookupLast fs scKey)
        | none => ((p : ℤ), .arr [], none)
      | _ => ((p : ℤ), .arr [], none)
    else ((p : ℤ), .arr [], none)
  | none => ((p : ℤ), .arr [], none)

/-- Truthiness filtering of `ai_correction` (`x if x else None`). -/
def pyCorr : Option Json → Option Json
  | some v => if jsonTruthy v then some v else none
  | none => none

/-- Model of `detected_indicators.extend(additional_analysis)` guarded by
the truthiness test: the elements appended (`none` models the uncaught
`TypeError` of `extend` on a truthy non-iterable value). -/
def extendList (v : Json) : Option (List Json) :=
  if jsonTruthy v then elementsOf v else some []

/-- Lines 199-208: the score-banded analysis text and correction, given
the number of detected techniques, the total match count and the
(truthiness-filtered) AI correction. -/
def bandText (final : ℤ) (n total : Nat) (aiCorr : Option Json) : List Char × Option Json :=
  if final < 30 then (analysisLow, aiCorr)
  else if final < 70 then (analysisMid n, some (aiCorr.getD (.str fallbackMid)))
  else (analysisHigh n total, some (aiCorr.getD (.str fallbackHigh)))

/-- Lines 178-210 of `analyze_propaganda`: assembling the response from
the fusion outcome. -/
def assemble (c : Content) (fused : ℤ × Json × Option Json) : Option Report :=
  match extendList fused.2.1 with
  | none => none
  | some ex =>
    some ⟨c.title, c.author, c.date, c.source, wordCount c.text, fused.1,
      detailedMatches c.text,
      ((detailedMatches c.text).map fun pr => Json.str pr.1.data) ++ ex,
      (bandText fused.1 (((detailedMatches c.text).map fun pr => Json.str pr.1.data) ++ ex).length
        (totalIndicators c.text) (pyCorr fused.2.2)).1,
      (bandText fused.1 (((detailedMatches c.text).map fun pr => Json.str pr.1.data) ++ ex).length
        (totalIndicators c.text) (pyCorr fused.2.2)).2⟩

/-- Lines 124-210 of `analyze_propaganda`, given the (already obtained) AI
analysis value: pattern matching, score fusion, report assembly. -/
def buildReport (c : Content) (ai : Option Json) : Option Report :=
  assemble c (fuseStep (patternScore c.text) ai)

/-- Model of `analyze_propaganda`: Gemini call, fusion and assembly. -/
def analyze_propaganda (env : GeminiEnv) (c : Content) : Option Report :=
  buildReport c (analyze_with_gemini env)

/-! ### Content normalization (`extract_article_content`) -/

/-- The document exposed by the extraction collaborator (fields read by
key from the trafilatura JSON output, with the empty string as default). -/
structure TDoc where
  text : List Char
  title : List Char
  author : List Char
  date : List Char
deriving DecidableEq, Repr

/-- Model of `extract_article_content`: direct content (stripped) when
non-empty, else the document of the collaborator (`none` outer layer:
download failed; `some none`: extraction failed); any fault also yields
absence. -/
def extract_article_content (url content : List Char) (collab : Option (Option TDoc)) :
    Option Content :=
  if pyStrip content ≠ [] then
    some ⟨pyStrip content, [], [], [], "direct_input".data⟩
  else
    match collab with
    | some (some d) => some ⟨d.text, d.title, d.author, d.date, url⟩
    | _ => none

/-! ### Concrete inputs used in counterexamples and witnesses -/

/-- One indicator match among 22 whitespace-delimited words:
`2000 * 1 / 22 = 90.909...`, truncated by `int()` to 90. -/
def cTextC1 : List Char := "shocking z z z z z z z z z z z z z z z z z z z z z".data

/-- A one-word content record with no indicator matches (pattern score 0). -/
def czContent : Content := ⟨['z'], [], [], [], []⟩

/-- Near-JSON AI output: prose wrapping and a trailing comma. -/
def sC2 : String := "Here is the analysis: \x7b\"propaganda_likelihood\": 45,\x7d"

/-- Near-JSON with a trailing comma only. -/
def sC2w : String := "\x7b\"a\": 1,\x7d"

/-- Valid JSON carrying only one of the four expected fields. -/
def sC4 : String := "\x7b\"propaganda_likelihood\": 45\x7d"

/-- An extraction document whose text is empty. -/
def d0 : TDoc := ⟨[], ['t'], ['a'], ['d']⟩

/-! ### Helper lemmas -/

lemma bitLenAux_zero (fuel : Nat) : bitLenAux fuel 0 = 0 := by cases fuel <;> rfl

lemma bitLenAux_spec :
    ∀ fuel n : Nat, 0 < n → n ≤ fuel →
      2 ^ (bitLenAux fuel n - 1) ≤ n ∧ n < 2 ^ bitLenAux fuel n := by
  intro fuel
  induction fuel with
  | zero => intro n h hf; omega
  | succ fuel ih =>
    intro n h hf
    rcases n with _ | m
    · omega
    by_cases hm : m = 0
    · subst hm
      show 2 ^ (bitLenAux fuel (1 / 2) + 1 - 1) ≤ 1 ∧ 1 < 2 ^ (bitLenAux fuel (1 / 2) + 1)
      rw [show (1 : ℕ) / 2 = 0 from rfl, bitLenAux_zero]
      decide
    · have hk1 : 1 ≤ (m + 1) / 2 := by omega
      have hkf : (m + 1) / 2 ≤ fuel := by omega
      obtain ⟨ih1, ih2⟩ := ih ((m + 1) / 2) hk1 hkf
      show 2 ^ (bitLenAux fuel ((m + 1) / 2) + 1 - 1) ≤ m + 1 ∧
        m + 1 < 2 ^ (bitLenAux fuel ((m + 1) / 2) + 1)
      set b := bitLenAux fuel ((m + 1) / 2) with hb
      have hb1 : 1 ≤ b := by
        rcases Nat.eq_zero_or_pos b with h0 | h1
        · rw [h0, pow_zero] at ih2
          omega
        · exact h1
      have h2b : 2 ^ (b + 1) = 2 * 2 ^ b := by
        rw [pow_succ]
        ring
      have h2b' : 2 ^ b = 2 * 2 ^ (b - 1) := by
        rw [← pow_succ']
        congr 1
        omega
      simp only [Nat.add_sub_cancel]
      omega

lemma bitLen_spec (n : Nat) (h : 0 < n) : 2 ^ (bitLen n - 1) ≤ n ∧ n < 2 ^ bitLen n :=
  bitLenAux_spec n n h le_rfl

lemma pow2_eq (k : ℤ) : pow2 k = (2 : ℚ) ^ k := by
  unfold pow2
  split_ifs with h
  · conv_rhs => rw [show k = ((k.toNat : ℕ) : ℤ) from by omega]
    rw [zpow_natCast]
    push_cast
    ring
  · conv_rhs => rw [show k = -(((-k).toNat : ℕ) : ℤ) from by omega]
    rw [zpow_neg, zpow_natCast, one_div]
    push_cast
    ring

lemma qexp_spec {q : ℚ} (h : 0 < q) :
    (2 : ℚ) ^ qexp q ≤ q ∧ q < (2 : ℚ) ^ (qexp q + 1) := by
  have hnum : 0 < q.num := Rat.num_pos.mpr h
  have hden : 0 < q.den := q.den_pos
  obtain ⟨hA1, hA2⟩ := bitLen_spec q.num.natAbs (by omega)
  obtain ⟨hD1, hD2⟩ := bitLen_spec q.den hden
  set bA := bitLen q.num.natAbs with hbA
  set bD := bitLen q.den with hbD
  have hbA1 : 1 ≤ bA := by
    rcases Nat.eq_zero_or_pos bA with h0 | h1
    · rw [h0, pow_zero] at hA2
      omega
    · exact h1
  have hbD1 : 1 ≤ bD := by
    rcases Nat.eq_zero_or_pos bD with h0 | h1
    · rw [h0, pow_zero] at hD2
      omega
    · exact h1
  have haq : (q.num.natAbs : ℚ) = q * (q.den : ℚ) := by
    have hden' : ((q.den : ℚ)) ≠ 0 := by positivity
    have h0 := Rat.num_div_den q
    rw [div_eq_iff hden'] at h0
    have h1' : (q.num.natAbs : ℤ) = q.num := Int.natAbs_of_nonneg hnum.le
    calc (q.num.natAbs : ℚ) = ((q.num.natAbs : ℤ) : ℚ) := (Int.cast_natCast _).symm
      _ = (q.num : ℚ) := by rw [h1']
      _ = q * (q.den : ℚ) := h0
  have hdq : (0 : ℚ) < (q.den : ℚ) := by exact_mod_cast hden
  -- upper bound: q < 2^(bA - bD + 1)
  have hup : q < (2 : ℚ) ^ ((bA : ℤ) - (bD : ℤ) + 1) := by
    have hstep : q * (2 : ℚ) ^ ((bD : ℤ) - 1) < (2 : ℚ) ^ (bA : ℤ) := by
      have e1 : ((bD : ℤ) - 1) = ((bD - 1 : ℕ) : ℤ) := by omega
      rw [e1, zpow_natCast, zpow_natCast]
      have hd : ((2 : ℚ)) ^ (bD - 1) ≤ (q.den : ℚ) := by exact_mod_cast hD1
      have ha : (q.num.natAbs : ℚ) < (2 : ℚ) ^ bA := by exact_mod_cast hA2
      calc q * (2 : ℚ) ^ (bD - 1) ≤ q * (q.den : ℚ) :=
            mul_le_mul_of_nonneg_left hd h.le
        _ = (q.num.natAbs : ℚ) := haq.symm
        _ < (2 : ℚ) ^ bA := ha
    have hpow : (0 : ℚ) < (2 : ℚ) ^ ((bD : ℤ) - 1) := zpow_pos two_pos _
    rw [show ((bA : ℤ) - (bD : ℤ) + 1) = (bA : ℤ) - ((bD : ℤ) - 1) by ring,
      zpow_sub₀ (by norm_num : (2 : ℚ) ≠ 0), lt_div_iff hpow]
    exact hstep
  -- lower bound: 2^(bA - 1 - bD) ≤ q
  have hlow : (2 : ℚ) ^ ((bA : ℤ) - 1 - (bD : ℤ)) ≤ q := by
    have hstep : (2 : ℚ) ^ ((bA : ℤ) - 1) ≤ q * (2 : ℚ) ^ (bD : ℤ) := by
      have e1 : ((bA : ℤ) - 1) = ((bA - 1 : ℕ) : ℤ) := by omega
      rw [e1, zpow_natCast, zpow_natCast]
      have ha : ((2 : ℚ)) ^ (bA - 1) ≤ (q.num.natAbs : ℚ) := by exact_mod_cast hA1
      have hd : (q.den : ℚ) ≤ (2 : ℚ) ^ bD := by exact_mod_cast hD2.le
      calc (2 : ℚ) ^ (bA - 1) ≤ (q.num.natAbs : ℚ) := ha
        _ = q * (q.den : ℚ) := haq
        _ ≤ q * (2 : ℚ) ^ bD := mul_le_mul_of_nonneg_left hd h.le
    have hpow : (0 : ℚ) < (2 : ℚ) ^ (bD : ℤ) := zpow_pos two_pos _
    rw [show ((bA : ℤ) - 1 - (bD : ℤ)) = (bA : ℤ) - 1 - (bD : ℤ) from rfl,
      zpow_sub₀ (by norm_num : (2 : ℚ) ≠ 0), div_le_iff hpow]
    exact hstep
  unfold qexp
  rw [← hbA, ← hbD]
  split_ifs with hif
  · rw [pow2_eq] at hif
    exact ⟨hif, hup⟩
  · rw [pow2_eq] at hif
    constructor
    · have he : (bA : ℤ) - (bD : ℤ) - 1 = (bA : ℤ) - 1 - bD := by ring
      rw [he]
      exact hlow
    · have he : (bA : ℤ) - (bD : ℤ) - 1 + 1 = (bA : ℤ) - bD := by ring
      rw [he]
      exact lt_of_not_le hif

lemma roundEven_bounds (x : ℚ) :
    x - 1 / 2 ≤ (roundEven x : ℚ) ∧ (roundEven x : ℚ) ≤ x + 1 / 2 := by
  have h1 := Int.floor_le x
  have h2 := Int.lt_floor_add_one x
  unfold roundEven
  split_ifs with ha hb hc <;> constructor <;> push_cast <;> linarith

lemma intToRat_eq (n : ℤ) : intToRat n = (n : ℚ) := by
  apply Rat.ext <;> simp [intToRat]

lemma rndPos_bounds {q : ℚ} (h : 0 < q) :
    q - q / 2 ^ 53 ≤ rndPos q ∧ rndPos q ≤ q + q / 2 ^ 53 := by
  obtain ⟨he1, _⟩ := qexp_spec h
  set s : ℚ := (2 : ℚ) ^ (qexp q - 52) with hs
  have hspos : (0 : ℚ) < s := zpow_pos two_pos _
  obtain ⟨hr1, hr2⟩ := roundEven_bounds (q / s)
  have hmul1 : (q / s - 1 / 2) * s ≤ (roundEven (q / s) : ℚ) * s :=
    mul_le_mul_of_nonneg_right hr1 hspos.le
  have hmul2 : (roundEven (q / s) : ℚ) * s ≤ (q / s + 1 / 2) * s :=
    mul_le_mul_of_nonneg_right hr2 hspos.le
  have hqs : q / s * s = q := div_mul_cancel₀ q hspos.ne'
  have hexp1 : (q / s - 1 / 2) * s = q - s / 2 := by
    rw [sub_mul, hqs]
    ring
  have hexp2 : (q / s + 1 / 2) * s = q + s / 2 := by
    rw [add_mul, hqs]
    ring
  have hsle : s ≤ q / 2 ^ 52 := by
    have hss : s * 2 ^ 52 = (2 : ℚ) ^ qexp q := by
      rw [hs, ← zpow_natCast (2 : ℚ) 52, ← zpow_add₀ (by norm_num : (2 : ℚ) ≠ 0)]
      congr 1
      omega
    rw [le_div_iff (by norm_num : (0 : ℚ) < 2 ^ 52), hss]
    exact he1
  unfold rndPos
  rw [intToRat_eq, pow2_eq, ← hs]
  constructor
  · calc q - q / 2 ^ 53 = q - q / 2 ^ 52 / 2 := by ring
      _ ≤ q - s / 2 := by linarith
      _ = (q / s - 1 / 2) * s := hexp1.symm
      _ ≤ _ := hmul1
  · calc (roundEven (q / s) : ℚ) * s ≤ (q / s + 1 / 2) * s := hmul2
      _ = q + s / 2 := hexp2
      _ ≤ q + q / 2 ^ 52 / 2 := by linarith
      _ = q + q / 2 ^ 53 := by ring

lemma rnd_zero : rnd 0 = 0 := by
  unfold rnd
  norm_num

lemma rnd_bounds {q : ℚ} (h : 0 ≤ q) :
    q - q / 2 ^ 53 ≤ rnd q ∧ rnd q ≤ q + q / 2 ^ 53 := by
  rcases eq_or_lt_of_le h with h0 | hpos
  · rw [← h0, rnd_zero]
    norm_num
  · unfold rnd
    rw [if_neg hpos.ne', if_pos hpos]
    exact rndPos_bounds hpos

lemma rnd_nonneg {q : ℚ} (h : 0 ≤ q) : 0 ≤ rnd q := by
  have h1 := (rnd_bounds h).1
  have h2 : q / 2 ^ 53 ≤ q := div_le_self h (by norm_num)
  linarith

/-- Upper rounding bound transported through an upper estimate. -/
lemma rnd_le_of_le {q B : ℚ} (hq : 0 ≤ q) (h : q ≤ B) :
    rnd q ≤ B * (1 + 1 / 2 ^ 53) := by
  have h2 := (rnd_bounds hq).2
  calc rnd q ≤ q + q / 2 ^ 53 := h2
    _ = q * (1 + 1 / 2 ^ 53) := by ring
    _ ≤ B * (1 + 1 / 2 ^ 53) := mul_le_mul_of_nonneg_right h (by norm_num)

/-- Lower rounding bound transported through a lower estimate. -/
lemma le_rnd_of_le {q B : ℚ} (hq : 0 ≤ q) (hB : 0 ≤ B) (h : B ≤ q) :
    B * (1 - 1 / 2 ^ 53) ≤ rnd q := by
  have h1 := (rnd_bounds hq).1
  calc B * (1 - 1 / 2 ^ 53) ≤ q * (1 - 1 / 2 ^ 53) :=
      mul_le_mul_of_nonneg_right h (by norm_num)
    _ = q - q / 2 ^ 53 := by ring
    _ ≤ rnd q := h1

/-- The binary64 density chain stays within relative error `2^-50` of the
exact value `2000 * t / w`. -/
lemma density_bounds (t w : ℕ) :
    2000 * ((t : ℚ) / (w : ℚ)) * (1 - 1 / 2 ^ 50) ≤
        fmul (fmul (fdiv (t : ℚ) (w : ℚ)) 100) 20 ∧
      fmul (fmul (fdiv (t : ℚ) (w : ℚ)) 100) 20 ≤
        2000 * ((t : ℚ) / (w : ℚ)) * (1 + 1 / 2 ^ 50) := by
  simp only [fdiv, fmul]
  set D : ℚ := (t : ℚ) / (w : ℚ) with hD
  have hD0 : 0 ≤ D := by positivity
  -- step 1: a = rnd D
  have ha_u : rnd D ≤ D * (1 + 1 / 2 ^ 53) := by
    simpa using rnd_le_of_le hD0 le_rfl
  have ha_l : D * (1 - 1 / 2 ^ 53) ≤ rnd D := le_rnd_of_le hD0 hD0 le_rfl
  have ha0 : 0 ≤ rnd D := rnd_nonneg hD0
  -- step 2: b = rnd (a * 100)
  have hq2 : (0 : ℚ) ≤ rnd D * 100 := by positivity
  have hb_u : rnd (rnd D * 100) ≤ D * (1 + 1 / 2 ^ 53) * 100 * (1 + 1 / 2 ^ 53) :=
    rnd_le_of_le hq2 (mul_le_mul_of_nonneg_right ha_u (by norm_num))
  have hb_l : D * (1 - 1 / 2 ^ 53) * 100 * (1 - 1 / 2 ^ 53) ≤ rnd (rnd D * 100) :=
    le_rnd_of_le hq2 (by positivity) (mul_le_mul_of_nonneg_right ha_l (by norm_num))
  have hb0 : 0 ≤ rnd (rnd D * 100) := rnd_nonneg hq2
  -- step 3: c = rnd (b * 20)
  have hq3 : (0 : ℚ) ≤ rnd (rnd D * 100) * 20 := by positivity
  have hc_u : rnd (rnd (rnd D * 100) * 20) ≤
      D * (1 + 1 / 2 ^ 53) * 100 * (1 + 1 / 2 ^ 53) * 20 * (1 + 1 / 2 ^ 53) :=
    rnd_le_of_le hq3 (mul_le_mul_of_nonneg_right hb_u (by norm_num))
  have hc_l : D * (1 - 1 / 2 ^ 53) * 100 * (1 - 1 / 2 ^ 53) * 20 * (1 - 1 / 2 ^ 53) ≤
      rnd (rnd (rnd D * 100) * 20) :=
    le_rnd_of_le hq3 (by positivity) (mul_le_mul_of_nonneg_right hb_l (by norm_num))
  have hone_l : (1 - 1 / 2 ^ 50 : ℚ) ≤ (1 - 1 / 2 ^ 53) * (1 - 1 / 2 ^ 53) * (1 - 1 / 2 ^ 53) := by
    norm_num
  have hone_u : ((1 + 1 / 2 ^ 53) * (1 + 1 / 2 ^ 53) * (1 + 1 / 2 ^ 53) : ℚ) ≤ 1 + 1 / 2 ^ 50 := by
    norm_num
  constructor
  · calc 2000 * D * (1 - 1 / 2 ^ 50)
        ≤ 2000 * D * ((1 - 1 / 2 ^ 53) * (1 - 1 / 2 ^ 53) * (1 - 1 / 2 ^ 53)) :=
          mul_le_mul_of_nonneg_left hone_l (by positivity)
      _ = D * (1 - 1 / 2 ^ 53) * 100 * (1 - 1 / 2 ^ 53) * 20 * (1 - 1 / 2 ^ 53) := by ring
      _ ≤ _ := hc_l
  · calc rnd (rnd (rnd D * 100) * 20)
        ≤ D * (1 + 1 / 2 ^ 53) * 100 * (1 + 1 / 2 ^ 53) * 20 * (1 + 1 / 2 ^ 53) := hc_u
      _ = 2000 * D * ((1 + 1 / 2 ^ 53) * (1 + 1 / 2 ^ 53) * (1 + 1 / 2 ^ 53)) := by ring
      _ ≤ 2000 * D * (1 + 1 / 2 ^ 50) :=
          mul_le_mul_of_nonneg_left hone_u (by positivity)

lemma patternScore_le (l : List Char) : patternScore l ≤ 100 := by
  unfold patternScore
  exact min_le_right _ _

lemma patternScore_zero_words (l : List Char) (h : wordCount l = 0) : patternScore l = 0 := by
  unfold patternScore indicatorDensity
  rw [if_neg (by omega), show fmul (0 : ℚ) 20 = 0 from by rw [fmul, zero_mul, rnd_zero]]
  norm_num [pyTrunc]

lemma patternScore_zero_matches (l : List Char) (h : totalIndicators l = 0) :
    patternScore l = 0 := by
  rcases Nat.eq_zero_or_pos (wordCount l) with hw | hw
  · exact patternScore_zero_words l hw
  · unfold patternScore indicatorDensity
    rw [if_pos hw, h]
    simp only [Nat.cast_zero, fdiv, fmul, zero_div, rnd_zero, zero_mul]
    norm_num [pyTrunc]

/-- The pattern score computed in binary64 is within 1 of the exact
`min(⌊2000 t / w⌋, 100)`. -/
lemma patternScore_near (l : List Char) (hw : 0 < wordCount l) :
    patternScore l ≤ min ((2000 * totalIndicators l) / wordCount l) 100 + 1 ∧
      min ((2000 * totalIndicators l) / wordCount l) 100 ≤ patternScore l + 1 := by
  set t := totalIndicators l with ht
  set w := wordCount l with hwn
  obtain ⟨hcl, hcu⟩ := density_bounds t w
  norm_num at hcl hcu
  set F : ℚ := fmul (fmul (fdiv (t : ℚ) (w : ℚ)) 100) 20 with hFd
  set X : ℚ := 2000 * ((t : ℚ) / (w : ℚ)) with hXd
  have hX0 : 0 ≤ X := by positivity
  have hF0 : 0 ≤ F := le_trans (by positivity) hcl
  have hps : patternScore l = min (⌊F⌋₊) 100 := by
    unfold patternScore indicatorDensity
    rw [if_pos hw, ← hwn, ← ht, ← hFd, pyTrunc, if_pos hF0, Int.floor_toNat]
  have hXN : ⌊X⌋₊ = (2000 * t) / w := by
    have hXeq : X = ((2000 * t : ℕ) : ℚ) / ((w : ℕ) : ℚ) := by
      rw [hXd]
      push_cast
      ring
    rw [hXeq, Nat.floor_div_nat, Nat.floor_natCast]
  rw [hps, ← hXN]
  by_cases hX101 : X ≤ 101
  · have hu : F ≤ X + 1 := by nlinarith
    have hl : X ≤ F + 1 := by nlinarith
    have h1 : ⌊F⌋₊ ≤ ⌊X⌋₊ + 1 := by
      calc ⌊F⌋₊ ≤ ⌊X + 1⌋₊ := Nat.floor_le_floor hu
        _ = ⌊X⌋₊ + 1 := Nat.floor_add_one hX0
    have h2 : ⌊X⌋₊ ≤ ⌊F⌋₊ + 1 := by
      calc ⌊X⌋₊ ≤ ⌊F + 1⌋₊ := Nat.floor_le_floor hl
        _ = ⌊F⌋₊ + 1 := Nat.floor_add_one hF0
    omega
  · have hX101' : (101 : ℚ) < X := lt_of_not_le hX101
    have hF100 : (100 : ℕ) ≤ ⌊F⌋₊ := by
      apply Nat.le_floor
      push_cast
      nlinarith
    have hX101n : (101 : ℕ) ≤ ⌊X⌋₊ := by
      apply Nat.le_floor
      push_cast
      linarith
    omega

set_option maxRecDepth 100000 in
lemma c04_val : c04 = 3602879701896397 / 9007199254740992 := by
  refine Rat.ext ?_ ?_ <;> with_unfolding_all decide

set_option maxRecDepth 100000 in
lemma c06_val : c06 = 5404319552844595 / 9007199254740992 := by
  refine Rat.ext ?_ ?_ <;> with_unfolding_all decide

/-- The binary64 fusion chain stays within relative error `2^-50` of the
exact `p * 2/5 + q * 3/5`. -/
lemma fuse_bounds (p : ℕ) (q : ℚ) (hq : 0 ≤ q) :
    ((p : ℚ) * (2 / 5) + q * (3 / 5)) * (1 - 1 / 2 ^ 50) ≤ fuseVal p q ∧
      fuseVal p q ≤ ((p : ℚ) * (2 / 5) + q * (3 / 5)) * (1 + 1 / 2 ^ 50) := by
  simp only [fuseVal, fmul, fadd]
  have hp0 : (0 : ℚ) ≤ (p : ℚ) := Nat.cast_nonneg p
  have hc04l : (2 / 5 : ℚ) * (1 - 1 / 2 ^ 53) ≤ c04 := by
    rw [c04_val]
    norm_num
  have hc04u : c04 ≤ (2 / 5 : ℚ) * (1 + 1 / 2 ^ 53) := by
    rw [c04_val]
    norm_num
  have hc040 : (0 : ℚ) ≤ c04 := by
    rw [c04_val]
    norm_num
  have hc06l : (3 / 5 : ℚ) * (1 - 1 / 2 ^ 53) ≤ c06 := by
    rw [c06_val]
    norm_num
  have hc06u : c06 ≤ (3 / 5 : ℚ) * (1 + 1 / 2 ^ 53) := by
    rw [c06_val]
    norm_num
  have hc060 : (0 : ℚ) ≤ c06 := by
    rw [c06_val]
    norm_num
  -- conversion of the two operands
  have hap_u : rnd (p : ℚ) ≤ (p : ℚ) * (1 + 1 / 2 ^ 53) := by
    simpa using rnd_le_of_le hp0 le_rfl
  have hap_l : (p : ℚ) * (1 - 1 / 2 ^ 53) ≤ rnd (p : ℚ) := le_rnd_of_le hp0 hp0 le_rfl
  have hap0 : 0 ≤ rnd (p : ℚ) := rnd_nonneg hp0
  have haq_u : rnd q ≤ q * (1 + 1 / 2 ^ 53) := by
    simpa using rnd_le_of_le hq le_rfl
  have haq_l : q * (1 - 1 / 2 ^ 53) ≤ rnd q := le_rnd_of_le hq hq le_rfl
  have haq0 : 0 ≤ rnd q := rnd_nonneg hq
  -- the two products
  have hm1 : (0 : ℚ) ≤ rnd (p : ℚ) * c04 := mul_nonneg hap0 hc040
  have hy1_u : rnd (rnd (p : ℚ) * c04) ≤
      (p : ℚ) * (1 + 1 / 2 ^ 53) * ((2 / 5) * (1 + 1 / 2 ^ 53)) * (1 + 1 / 2 ^ 53) :=
    rnd_le_of_le hm1 (mul_le_mul hap_u hc04u hc040 (by positivity))
  have hy1_l : (p : ℚ) * (1 - 1 / 2 ^ 53) * ((2 / 5) * (1 - 1 / 2 ^ 53)) * (1 - 1 / 2 ^ 53) ≤
      rnd (rnd (p : ℚ) * c04) :=
    le_rnd_of_le hm1 (by positivity)
      (mul_le_mul hap_l hc04l (by positivity) hap0)
  have hy10 : 0 ≤ rnd (rnd (p : ℚ) * c04) := rnd_nonneg hm1
  have hm2 : (0 : ℚ) ≤ rnd q * c06 := mul_nonneg haq0 hc060
  have hy2_u : rnd (rnd q * c06) ≤
      q * (1 + 1 / 2 ^ 53) * ((3 / 5) * (1 + 1 / 2 ^ 53)) * (1 + 1 / 2 ^ 53) :=
    rnd_le_of_le hm2 (mul_le_mul haq_u hc06u hc060 (by positivity))
  have hy2_l : q * (1 - 1 / 2 ^ 53) * ((3 / 5) * (1 - 1 / 2 ^ 53)) * (1 - 1 / 2 ^ 53) ≤
      rnd (rnd q * c06) :=
    le_rnd_of_le hm2 (by positivity)
      (mul_le_mul haq_l hc06l (by positivity) haq0)
  have hy20 : 0 ≤ rnd (rnd q * c06) := rnd_nonneg hm2
  -- the sum
  have hsum0 : (0 : ℚ) ≤ rnd (rnd (p : ℚ) * c04) + rnd (rnd q * c06) := by positivity
  have hS0 : (0 : ℚ) ≤ (p : ℚ) * (2 / 5) + q * (3 / 5) := by positivity
  have hsum_u : rnd (rnd (p : ℚ) * c04) + rnd (rnd q * c06) ≤
      ((p : ℚ) * (2 / 5) + q * (3 / 5)) *
        ((1 + 1 / 2 ^ 53) * (1 + 1 / 2 ^ 53) * (1 + 1 / 2 ^ 53)) := by
    have := add_le_add hy1_u hy2_u
    calc rnd (rnd (p : ℚ) * c04) + rnd (rnd q * c06)
        ≤ (p : ℚ) * (1 + 1 / 2 ^ 53) * ((2 / 5) * (1 + 1 / 2 ^ 53)) * (1 + 1 / 2 ^ 53) +
          q * (1 + 1 / 2 ^ 53) * ((3 / 5) * (1 + 1 / 2 ^ 53)) * (1 + 1 / 2 ^ 53) := this
      _ = ((p : ℚ) * (2 / 5) + q * (3 / 5)) *
          ((1 + 1 / 2 ^ 53) * (1 + 1 / 2 ^ 53) * (1 + 1 / 2 ^ 53)) := by ring
  have hsum_l : ((p : ℚ) * (2 / 5) + q * (3 / 5)) *
      ((1 - 1 / 2 ^ 53) * (1 - 1 / 2 ^ 53) * (1 - 1 / 2 ^ 53)) ≤
      rnd (rnd (p : ℚ) * c04) + rnd (rnd q * c06) := by
    have := add_le_add hy1_l hy2_l
    calc ((p : ℚ) * (2 / 5) + q * (3 / 5)) *
          ((1 - 1 / 2 ^ 53) * (1 - 1 / 2 ^ 53) * (1 - 1 / 2 ^ 53))
        = (p : ℚ) * (1 - 1 / 2 ^ 53) * ((2 / 5) * (1 - 1 / 2 ^ 53)) * (1 - 1 / 2 ^ 53) +
          q * (1 - 1 / 2 ^ 53) * ((3 / 5) * (1 - 1 / 2 ^ 53)) * (1 - 1 / 2 ^ 53) := by ring
      _ ≤ _ := this
  -- the rounded sum
  have hF_u : rnd (rnd (rnd (p : ℚ) * c04) + rnd (rnd q * c06)) ≤
      ((p : ℚ) * (2 / 5) + q * (3 / 5)) *
        ((1 + 1 / 2 ^ 53) * (1 + 1 / 2 ^ 53) * (1 + 1 / 2 ^ 53)) * (1 + 1 / 2 ^ 53) :=
    rnd_le_of_le hsum0 hsum_u
  have hF_l : ((p : ℚ) * (2 / 5) + q * (3 / 5)) *
      ((1 - 1 / 2 ^ 53) * (1 - 1 / 2 ^ 53) * (1 - 1 / 2 ^ 53)) * (1 - 1 / 2 ^ 53) ≤
      rnd (rnd (rnd (p : ℚ) * c04) + rnd (rnd q * c06)) :=
    le_rnd_of_le hsum0 (by positivity) hsum_l
  have hone_l : (1 - 1 / 2 ^ 50 : ℚ) ≤
      (1 - 1 / 2 ^ 53) * (1 - 1 / 2 ^ 53) * (1 - 1 / 2 ^ 53) * (1 - 1 / 2 ^ 53) := by
    norm_num
  have hone_u : ((1 + 1 / 2 ^ 53) * (1 + 1 / 2 ^ 53) * (1 + 1 / 2 ^ 53) * (1 + 1 / 2 ^ 53) : ℚ) ≤
      1 + 1 / 2 ^ 50 := by
    norm_num
  constructor
  · calc ((p : ℚ) * (2 / 5) + q * (3 / 5)) * (1 - 1 / 2 ^ 50)
        ≤ ((p : ℚ) * (2 / 5) + q * (3 / 5)) *
          ((1 - 1 / 2 ^ 53) * (1 - 1 / 2 ^ 53) * (1 - 1 / 2 ^ 53) * (1 - 1 / 2 ^ 53)) :=
          mul_le_mul_of_nonneg_left hone_l hS0
      _ = ((p : ℚ) * (2 / 5) + q * (3 / 5)) *
          ((1 - 1 / 2 ^ 53) * (1 - 1 / 2 ^ 53) * (1 - 1 / 2 ^ 53)) * (1 - 1 / 2 ^ 53) := by ring
      _ ≤ _ := hF_l
  · calc rnd (rnd (rnd (p : ℚ) * c04) + rnd (rnd q * c06))
        ≤ ((p : ℚ) * (2 / 5) + q * (3 / 5)) *
          ((1 + 1 / 2 ^ 53) * (1 + 1 / 2 ^ 53) * (1 + 1 / 2 ^ 53)) * (1 + 1 / 2 ^ 53) := hF_u
      _ = ((p : ℚ) * (2 / 5) + q * (3 / 5)) *
          ((1 + 1 / 2 ^ 53) * (1 + 1 / 2 ^ 53) * (1 + 1 / 2 ^ 53) * (1 + 1 / 2 ^ 53)) := by ring
      _ ≤ ((p : ℚ) * (2 / 5) + q * (3 / 5)) * (1 + 1 / 2 ^ 50) :=
          mul_le_mul_of_nonneg_left hone_u hS0

/-- The truncated binary64 fusion value is in `[0, 100]` and within 1 of
the exact `⌊p * 2/5 + q * 3/5⌋` when both scores are in `[0, 100]`. -/
lemma fuse_trunc_near (p : ℕ) (q : ℚ) (hp : p ≤ 100) (h0 : 0 ≤ q) (h1 : q ≤ 100) :
    0 ≤ pyTrunc (fuseVal p q) ∧ pyTrunc (fuseVal p q) ≤ 100 ∧
      ⌊(p : ℚ) * (2 / 5) + q * (3 / 5)⌋ ≤ pyTrunc (fuseVal p q) + 1 ∧
      pyTrunc (fuseVal p q) ≤ ⌊(p : ℚ) * (2 / 5) + q * (3 / 5)⌋ + 1 := by
  obtain ⟨hl, hu⟩ := fuse_bounds p q h0
  norm_num at hl hu
  set S : ℚ := (p : ℚ) * (2 / 5) + q * (3 / 5) with hSd
  clear_value S
  have hS0 : 0 ≤ S := by rw [hSd]; positivity
  have hS100 : S ≤ 100 := by
    have hpq : (p : ℚ) ≤ 100 := by exact_mod_cast hp
    rw [hSd]
    linarith
  have hF0 : 0 ≤ fuseVal p q := le_trans (by positivity) hl
  have hsmall : S * (1 / 1125899906842624) ≤ 100 * (1 / 1125899906842624) :=
    mul_le_mul_of_nonneg_right hS100 (by norm_num)
  have hhalf : (100 : ℚ) * (1 / 1125899906842624) ≤ 1 / 2 := by norm_num
  have hu2 : fuseVal p q ≤ S + S * (1 / 1125899906842624) := by
    calc fuseVal p q ≤ S * (1125899906842625 / 1125899906842624) := hu
      _ = S + S * (1 / 1125899906842624) := by ring
  have hl2 : S - S * (1 / 1125899906842624) ≤ fuseVal p q := by
    calc S - S * (1 / 1125899906842624)
        = S * (1125899906842623 / 1125899906842624) := by ring
      _ ≤ fuseVal p q := hl
  have hFu : fuseVal p q ≤ S + 1 / 2 := by linarith
  have hFl : S - 1 / 2 ≤ fuseVal p q := by linarith
  have hpt : pyTrunc (fuseVal p q) = ⌊fuseVal p q⌋ := by
    rw [pyTrunc, if_pos hF0]
  rw [hpt]
  refine ⟨Int.floor_nonneg.mpr hF0, ?_, ?_, ?_⟩
  · have : fuseVal p q < 101 := by linarith
    have h101 := Int.floor_lt.mpr (by exact_mod_cast this : fuseVal p q < ((101 : ℤ) : ℚ))
    omega
  · have : S < fuseVal p q + 1 := by linarith
    calc ⌊S⌋ ≤ ⌊fuseVal p q + 1⌋ := Int.floor_le_floor this.le
      _ = ⌊fuseVal p q⌋ + 1 := by
        rw [show (1 : ℚ) = ((1 : ℤ) : ℚ) from rfl, Int.floor_add_int]
  · have : fuseVal p q < S + 1 := by linarith
    calc ⌊fuseVal p q⌋ ≤ ⌊S + 1⌋ := Int.floor_le_floor this.le
      _ = ⌊S⌋ + 1 := by
        rw [show (1 : ℚ) = ((1 : ℤ) : ℚ) from rfl, Int.floor_add_int]

set_option maxRecDepth 1000000 in
/-- Exhaustive check: fusing a pattern score with itself (the default for
a missing likelihood) reproduces it exactly, as in CPython. -/
lemma fuse_self_all : ∀ p : ℕ, p < 101 → pyTrunc (fuseVal p (p : ℚ)) = (p : ℤ) := by
  with_unfolding_all decide

lemma fuse_self (p : ℕ) (hp : p ≤ 100) : pyTrunc (fuseVal p (p : ℚ)) = (p : ℤ) :=
  fuse_self_all p (by omega)

/-- With no AI analysis, `analyze_propaganda` always builds a report whose
score is the pattern score. -/
lemma buildReport_none (c : Content) :
    ∃ r, buildReport c none = some r ∧ r.propaganda_score = (patternScore c.text : ℤ) :=
  ⟨_, rfl, rfl⟩

/-- A strict parse failure makes the Gemini result absent. -/
lemma gemini_absent_of_loads_none (t : String) (h : jsonLoads t = none) :
    analyze_with_gemini (.response t) = none := by
  simp only [analyze_with_gemini, h]
  exact ite_self none

lemma tryAlts_isPrefixOf {alts : List (List Char)} {suf w : List Char}
    (h : tryAlts alts suf = some w) : w.isPrefixOf suf = true := by
  unfold tryAlts at h
  have hp := List.find?_some h
  simp only [Bool.and_eq_true] at hp
  exact hp.1

/-- Every match produced by the scanner starts at or after the scan
position and ends within the scanned suffix. -/
lemma finditerAux_sound (alts : List (List Char)) :
    ∀ (fuel : Nat) (prev : Option Char) (suf : List Char) (i : Nat),
      ∀ pw ∈ finditerAux alts fuel prev suf i,
        i ≤ pw.1 ∧ pw.1 + pw.2.length ≤ i + suf.length := by
  intro fuel
  induction fuel with
  | zero =>
    intro prev suf i pw h
    simp [finditerAux] at h
  | succ fuel ih =>
    intro prev suf i pw h
    match suf with
    | [] => simp [finditerAux] at h
    | c :: rest =>
      rw [finditerAux] at h
      by_cases hb : (((prev.map isWordChar).getD false) != isWordChar c) = true
      · rw [if_pos hb] at h
        cases htry : tryAlts alts (c :: rest) with
        | none =>
          rw [htry] at h
          have := ih (some c) rest (i + 1) pw h
          simp only [List.length_cons]
          omega
        | some w =>
          rw [htry] at h
          have hw : w.length ≤ (c :: rest).length :=
            (List.isPrefixOf_iff_prefix.mp (tryAlts_isPrefixOf htry)).length_le
          rcases List.mem_cons.mp h with h | h
          · subst h
            simpa using hw
          · have := ih ((c :: rest).get? (w.length - 1)) ((c :: rest).drop w.length)
              (i + w.length) pw h
            rw [List.length_drop] at this
            omega
      · rw [if_neg hb] at h
        have := ih (some c) rest (i + 1) pw h
        simp only [List.length_cons]
        omega

lemma finditer_sound {alts : List (List Char)} {l : List Char} :
    ∀ pw ∈ finditer alts l, pw.1 + pw.2.length ≤ l.length := by
  intro pw h
  have := finditerAux_sound alts (l.length + 1) none l 0 pw h
  omega

lemma lowerStr_length (l : List Char) : (lowerStr l).length = l.length :=
  List.length_map l Char.toLower

lemma slice_len {l : List Char} {a b : Nat} (hb : b ≤ l.length) (hab : a ≤ b) :
    (slice l a b).length = b - a := by
  unfold slice
  rw [List.length_take, List.length_drop]
  omega

lemma slice_map (f : Char → Char) (l : List Char) (a b : Nat) :
    slice (l.map f) a b = (slice l a b).map f := by
  unfold slice
  rw [List.map_take, List.map_drop]

/-- The `detailed_matches` loop as a `filterMap` over the registry. -/
lemma detailedMatches_eq_filterMap (orig : List Char) :
    detailedMatches orig = propaganda_indicators.filterMap fun p =>
      if entriesFor orig p.2 = [] then none else some (p.1, entriesFor orig p.2) := by
  unfold detailedMatches
  suffices h : ∀ (cats : List (String × List (List Char)))
      (acc : List (String × List MatchEntry)),
      (cats.foldl (fun acc p =>
        if entriesFor orig p.2 = [] then acc else acc ++ [(p.1, entriesFor orig p.2)]) acc)
        = acc ++ cats.filterMap fun p =>
            if entriesFor orig p.2 = [] then none else some (p.1, entriesFor orig p.2) by
    simpa using h propaganda_indicators []
  intro cats
  induction cats with
  | nil => simp
  | cons hd tl ih =>
    intro acc
    simp only [List.foldl_cons, List.filterMap_cons]
    by_cases he : entriesFor orig hd.2 = [] <;>
      simp [he, ih, List.append_assoc]

lemma mem_detailedMatches (orig : List Char) (pr : String × List MatchEntry)
    (h : pr ∈ detailedMatches orig) :
    ∃ p ∈ propaganda_indicators, entriesFor orig p.2 ≠ [] ∧
      pr = (p.1, entriesFor orig p.2) := by
  rw [detailedMatches_eq_filterMap] at h
  rcases List.mem_filterMap.mp h with ⟨p, hp, hf⟩
  by_cases he : entriesFor orig p.2 = []
  · rw [if_pos he] at hf
    cases hf
  · rw [if_neg he] at hf
    exact ⟨p, hp, he, (Option.some.inj hf).symm⟩

/-! ### C1 -/

set_option maxRecDepth 1000000 in
/-- C1 (counterexample): for a 22-word text with one indicator match the
pattern score of the code is `int(90.909...) = 90`, while the claimed formula
`min(round(total/words*2000), 100)` gives 91. -/
theorem C1_round_counterexample :
    patternScore cTextC1 = 90 ∧
      min (round ((totalIndicators cTextC1 : ℚ) / (wordCount cTextC1 : ℚ) * 2000)) 100 = 91 := by
  with_unfolding_all decide

/-- C1 (amended): the pattern score is `min(int(d), 100)` where `d` is the
binary64 evaluation of `((total/words)*100)*20` — an `int()` truncation of
the float value, not a rounding of the exact ratio; it is 0 when there are
no words or no matches, never exceeds 100, and when `words > 0` it lies
within 1 of the exact `min(⌊total/words*2000⌋, 100)`. -/
theorem C1_pattern_score_spec (l : List Char) :
    (wordCount l = 0 → patternScore l = 0) ∧
      patternScore l ≤ 100 ∧
      (totalIndicators l = 0 → patternScore l = 0) ∧
      (0 < wordCount l →
        patternScore l ≤ min ((2000 * totalIndicators l) / wordCount l) 100 + 1 ∧
          min ((2000 * totalIndicators l) / wordCount l) 100 ≤ patternScore l + 1) :=
  ⟨patternScore_zero_words l, patternScore_le l, patternScore_zero_matches l,
    patternScore_near l⟩

/-- C1 (witness): the amended statement evaluated on a two-word text with
no indicator matches. -/
theorem C1_pattern_score_spec_witness :
    (0 < wordCount "hello world".data ∧
        patternScore "hello world".data ≤
          min ((2000 * totalIndicators "hello world".data) / wordCount "hello world".data) 100
            + 1) ∧
      totalIndicators "hello world".data = 0 ∧ patternScore "hello world".data = 0 :=
  ⟨⟨by decide, ((C1_pattern_score_spec "hello world".data).2.2.2 (by decide)).1⟩,
    by decide, (C1_pattern_score_spec "hello world".data).2.2.1 (by decide)⟩

/-! ### C2 -/

/-- C2 (counterexample): for near-JSON output (prose wrapping plus a
trailing comma) the strict parse fails and `analyze_with_gemini` yields
absence; no tolerant parse recovers `propaganda_likelihood = 45`. -/
theorem C2_no_tolerant_reparse :
    jsonLoads sC2 = none ∧ analyze_with_gemini (.response sC2) = none := ⟨rfl, rfl⟩

/-- C2 (amended): a single strict JSON parse is attempted; whenever it
fails the AI result is absent — there is no second, tolerant parse. -/
theorem C2_strict_parse_only (t : String) (h : jsonLoads t = none) :
    analyze_with_gemini (.response t) = none :=
  gemini_absent_of_loads_none t h

/-- C2 (witness): the amended statement applied to JSON with a trailing
comma. -/
theorem C2_strict_parse_only_witness :
    jsonLoads sC2w = none ∧ analyze_with_gemini (.response sC2w) = none :=
  ⟨rfl, C2_strict_parse_only sC2w rfl⟩

/-! ### C3 -/

/-- C3 (counterexample): pattern score 0 and AI likelihood 1 give
`int(0*0.4 + 1*0.6) = 0`, while the claimed `round` formula gives 1. -/
theorem C3_round_counterexample :
    (buildReport czContent (some (.obj [(plKey, .num 1)]))).map Report.propaganda_score =
        some 0 ∧
      round ((patternScore czContent.text : ℚ) * (2 / 5) + 1 * (3 / 5)) = 1 := by
  constructor
  · with_unfolding_all rfl
  · with_unfolding_all decide

/-- C3 (amended): with an AI likelihood `q ∈ [0,100]` present, the final
score is the `int()` truncation of the binary64 evaluation of
`pattern*0.4 + q*0.6`; it lies in `[0,100]` and is within 1 of the exact
`⌊pattern*0.4 + q*0.6⌋`; with the AI result absent the final score equals
the pattern score exactly. -/
theorem C3_fusion_spec (c : Content) (q : ℚ) (h0 : 0 ≤ q) (h100 : q ≤ 100) :
    (∃ r, buildReport c (some (.obj [(plKey, .num q)])) = some r ∧
        r.propaganda_score = pyTrunc (fuseVal (patternScore c.text) q) ∧
        0 ≤ r.propaganda_score ∧ r.propaganda_score ≤ 100 ∧
        ⌊(patternScore c.text : ℚ) * (2 / 5) + q * (3 / 5)⌋ ≤ r.propaganda_score + 1 ∧
        r.propaganda_score ≤ ⌊(patternScore c.text : ℚ) * (2 / 5) + q * (3 / 5)⌋ + 1) ∧
      ∃ r, buildReport c none = some r ∧ r.propaganda_score = (patternScore c.text : ℤ) := by
  obtain ⟨hn0, hn100, hs1, hs2⟩ :=
    fuse_trunc_near (patternScore c.text) q (patternScore_le c.text) h0 h100
  exact ⟨⟨_, rfl, rfl, hn0, hn100, hs1, hs2⟩, buildReport_none c⟩

/-- C3 (witness): the amended statement evaluated at pattern score 0 and
AI likelihood 45 (final score 27). -/
theorem C3_fusion_spec_witness :
    ∃ r, buildReport czContent (some (.obj [(plKey, .num 45)])) = some r ∧
      r.propaganda_score = pyTrunc (fuseVal (patternScore czContent.text) 45) ∧
      0 ≤ r.propaganda_score ∧ r.propaganda_score ≤ 100 ∧
      ⌊(patternScore czContent.text : ℚ) * (2 / 5) + 45 * (3 / 5)⌋ ≤ r.propaganda_score + 1 ∧
      r.propaganda_score ≤ ⌊(patternScore czContent.text : ℚ) * (2 / 5) + 45 * (3 / 5)⌋ + 1 :=
  (C3_fusion_spec czContent 45 (by norm_num) (by norm_num)).1

/-! ### C5 -/

/-- C5 (counterexample): with empty direct content, a collaborator
document whose text is empty is not turned into absence — the normalizer
returns a record with an empty `text` field. -/
theorem C5_empty_text_record :
    extract_article_content ['u'] [] (some (some d0)) =
        some ⟨[], ['t'], ['a'], ['d'], ['u']⟩ ∧
      (extract_article_content ['u'] [] (some (some d0))).map Content.text = some [] := by
  constructor <;> rfl

/-- C5 (amended): absence is signalled exactly when direct content trims
to empty and the collaborator yields no document (download or extraction
failure); a returned document is always accepted, so a produced record can
have empty text only when the collaborator's document text was empty. -/
theorem C5_normalizer_spec (url content : List Char) (collab : Option (Option TDoc)) :
    (pyStrip content ≠ [] →
        extract_article_content url content collab =
          some ⟨pyStrip content, [], [], [], "direct_input".data⟩) ∧
      (pyStrip content = [] →
        (extract_article_content url content collab = none ↔
            (collab = none ∨ collab = some none)) ∧
          ∀ d, collab = some (some d) →
            extract_article_content url content collab =
              some ⟨d.text, d.title, d.author, d.date, url⟩) ∧
      ∀ c', extract_article_content url content collab = some c' → c'.text = [] →
        ∃ d, collab = some (some d) ∧ d.text = [] := by
  unfold extract_article_content
  by_cases h : pyStrip content = []
  · rw [if_neg (by simpa using h)]
    refine ⟨fun hc => absurd h hc, fun _ => ⟨?_, ?_⟩, ?_⟩
    · rcases collab with _ | cd
      · simp
      · rcases cd with _ | d <;> simp
    · rintro d rfl
      rfl
    · rcases collab with _ | cd
      · intro c' hc
        exact Option.noConfusion hc
      · rcases cd with _ | d
        · intro c' hc
          exact Option.noConfusion hc
        · rintro c' hc ht
          refine ⟨d, rfl, ?_⟩
          cases Option.some.inj hc
          exact ht
  · rw [if_pos h]
    refine ⟨fun _ => rfl, fun hc => absurd hc h, ?_⟩
    rintro c' hc ht
    cases Option.some.inj hc
    exact absurd ht h

/-- C5 (witness): with blank direct content and a failed download the
normalizer signals absence. -/
theorem C5_normalizer_spec_witness :
    extract_article_content ['u'] [' '] none = none :=
  (((C5_normalizer_spec ['u'] [' '] none).2.1 rfl).1).mpr (Or.inl rfl)

lemma mem_entriesFor {orig : List Char} {alts : List (List Char)} {en : MatchEntry}
    (h : en ∈ entriesFor orig alts) :
    ∃ pw ∈ finditer alts (lowerStr orig),
      en = ⟨slice (lowerStr orig) pw.1 (pw.1 + pw.2.length),
            contextOf orig pw.1 (pw.1 + pw.2.length), pw.1⟩ := by
  unfold entriesFor at h
  rcases List.mem_map.mp h with ⟨pw, hpw, he⟩
  exact ⟨pw, hpw, he.symm⟩

/-- Common shape of a recorded match entry: the match ends within the
text, the `matched_text` is the slice of the lowered text at the match span,
and the context is the window around that span in the original text. -/
lemma entry_shape {orig : List Char} {nm : String} {entries : List MatchEntry}
    {en : MatchEntry} (hm : (nm, entries) ∈ detailedMatches orig) (he : en ∈ entries) :
    en.position + en.matched_text.length ≤ orig.length ∧
      en.matched_text =
        slice (lowerStr orig) en.position (en.position + en.matched_text.length) ∧
      en.context = contextOf orig en.position (en.position + en.matched_text.length) := by
  rcases mem_detailedMatches orig (nm, entries) hm with ⟨p, _, _, hpr⟩
  have hent : entries = entriesFor orig p.2 := congrArg Prod.snd hpr
  rw [hent] at he
  rcases mem_entriesFor he with ⟨pw, hpw, hform⟩
  subst hform
  have hend : pw.1 + pw.2.length ≤ orig.length := by
    have := finditer_sound pw hpw
    rwa [lowerStr_length] at this
  have hlen : (slice (lowerStr orig) pw.1 (pw.1 + pw.2.length)).length = pw.2.length := by
    rw [slice_len (by rwa [lowerStr_length]) (Nat.le_add_right _ _)]
    omega
  refine ⟨?_, ?_, ?_⟩
  · show pw.1 + (slice (lowerStr orig) pw.1 (pw.1 + pw.2.length)).length ≤ orig.length
    omega
  · show slice (lowerStr orig) pw.1 (pw.1 + pw.2.length) =
      slice (lowerStr orig) pw.1 (pw.1 + (slice (lowerStr orig) pw.1 (pw.1 + pw.2.length)).length)
    rw [hlen]
  · show contextOf orig pw.1 (pw.1 + pw.2.length) =
      contextOf orig pw.1 (pw.1 + (slice (lowerStr orig) pw.1 (pw.1 + pw.2.length)).length)
    rw [hlen]

/-! ### C6 -/

/-- C6: every recorded context window is the original text clamped to
`[max(0, start-50), min(len, end+50)]`, wrapped in `...` on both sides
(also at text boundaries), carrying exactly `min(50, available)`
characters on each side of the match. -/
theorem C6_context_window (orig : List Char) (nm : String) (entries : List MatchEntry)
    (en : MatchEntry) (hm : (nm, entries) ∈ detailedMatches orig) (he : en ∈ entries) :
    en.position + en.matched_text.length ≤ orig.length ∧
      en.context = dots ++ slice orig (en.position - 50)
        (min orig.length (en.position + en.matched_text.length + 50)) ++ dots ∧
      en.position - (en.position - 50) = min 50 en.position ∧
      min orig.length (en.position + en.matched_text.length + 50) -
          (en.position + en.matched_text.length) =
        min 50 (orig.length - (en.position + en.matched_text.length)) ∧
      (slice orig (en.position - 50)
          (min orig.length (en.position + en.matched_text.length + 50))).length =
        min 50 en.position + en.matched_text.length +
          min 50 (orig.length - (en.position + en.matched_text.length)) := by
  rcases entry_shape hm he with ⟨hle, _, hctx⟩
  refine ⟨hle, hctx, by omega, by omega, ?_⟩
  rw [slice_len (min_le_left _ _) (by omega)]
  omega

/-- C6 (witness): one-word text "terrible" — the match is at both text
boundaries, the window is the whole text, still wrapped in ellipses. -/
theorem C6_context_window_witness :
    (("emotional_language", [⟨"terrible".data, "...terrible...".data, 0⟩]) ∈
        detailedMatches "terrible".data) ∧
      ("...terrible...".data =
        dots ++ slice "terrible".data (0 - 50) (min ("terrible".data).length
          (0 + ("terrible".data).length + 50)) ++ dots) := by
  refine ⟨by decide, ?_⟩
  have h := C6_context_window "terrible".data "emotional_language"
    [⟨"terrible".data, "...terrible...".data, 0⟩]
    ⟨"terrible".data, "...terrible...".data, 0⟩ (by decide) (by decide)
  exact h.2.1

/-! ### C9 -/

/-- C9: the detailed-match map has a key exactly for the categories with
at least one match, never maps a key to an empty list, and lists its keys
in the enumeration order of the registry. -/
theorem C9_detailed_matches_keys (orig : List Char) :
    ((detailedMatches orig).map Prod.fst =
        (propaganda_indicators.filter fun p => entriesFor orig p.2 ≠ []).map Prod.fst) ∧
      (∀ pr ∈ detailedMatches orig, pr.2 ≠ []) ∧
      ∀ nm : String, nm ∈ (detailedMatches orig).map Prod.fst ↔
        ∃ p ∈ propaganda_indicators, p.1 = nm ∧ entriesFor orig p.2 ≠ [] := by
  refine ⟨?_, ?_, ?_⟩
  · rw [detailedMatches_eq_filterMap]
    suffices h : ∀ cats : List (String × List (List Char)),
        ((cats.filterMap fun p =>
          if entriesFor orig p.2 = [] then none else some (p.1, entriesFor orig p.2)).map
            Prod.fst) =
          ((cats.filter fun p => entriesFor orig p.2 ≠ []).map Prod.fst) from
      h propaganda_indicators
    intro cats
    induction cats with
    | nil => rfl
    | cons hd tl ih =>
      by_cases he : entriesFor orig hd.2 = [] <;>
        simp [List.filterMap_cons, List.filter_cons, he, ih]
  · intro pr hpr
    rcases mem_detailedMatches orig pr hpr with ⟨p, _, hne, hpr⟩
    rw [hpr]
    exact hne
  · intro nm
    constructor
    · intro h
      rcases List.mem_map.mp h with ⟨pr, hpr, hfst⟩
      rcases mem_detailedMatches orig pr hpr with ⟨p, hp, hne, hpr'⟩
      refine ⟨p, hp, ?_, hne⟩
      rw [hpr'] at hfst
      exact hfst
    · rintro ⟨p, hp, rfl, hne⟩
      rw [detailedMatches_eq_filterMap]
      refine List.mem_map.mpr ⟨(p.1, entriesFor orig p.2), ?_, rfl⟩
      exact List.mem_filterMap.mpr ⟨p, hp, by rw [if_neg hne]⟩

/-- C9 (witness): for the text "terrible crisis" exactly the emotional and
fear-mongering categories get keys, in registry order, with non-empty
values. -/
theorem C9_detailed_matches_keys_witness :
    ((detailedMatches "terrible crisis".data).map Prod.fst =
        ["emotional_language", "fear_mongering"]) ∧
      (("fear_mongering", [⟨"crisis".data, "...terrible crisis...".data, 9⟩]) ∈
          detailedMatches "terrible crisis".data →
        [(⟨"crisis".data, "...terrible crisis...".data, 9⟩ : MatchEntry)] ≠ []) := by
  refine ⟨by decide, ?_⟩
  intro hm
  exact (C9_detailed_matches_keys "terrible crisis".data).2.1 _ hm

/-! ### C10 -/

/-- C10: each recorded `matched_text` is the lower-cased copy of the
slice of the original text at the match position, while the context window is
cut from the original text with its casing preserved. -/
theorem C10_casing (orig : List Char) (nm : String) (entries : List MatchEntry)
    (en : MatchEntry) (hm : (nm, entries) ∈ detailedMatches orig) (he : en ∈ entries) :
    en.matched_text =
        lowerStr (slice orig en.position (en.position + en.matched_text.length)) ∧
      en.context = dots ++ slice orig (en.position - 50)
        (min orig.length (en.position + en.matched_text.length + 50)) ++ dots := by
  rcases entry_shape hm he with ⟨_, hmt, hctx⟩
  constructor
  · conv_lhs => rw [hmt]
    unfold lowerStr
    rw [slice_map]
  · exact hctx

/-- C10 (witness): in "SHOCKING news" the recorded `matched_text` is the
lower-cased "shocking" while the context keeps the original upper-case
text. -/
theorem C10_casing_witness :
    (("emotional_language", [⟨"shocking".data, "...SHOCKING news...".data, 0⟩]) ∈
        detailedMatches "SHOCKING news".data) ∧
      "shocking".data =
        lowerStr (slice "SHOCKING news".data 0 (0 + ("shocking".data).length)) := by
  refine ⟨by decide, ?_⟩
  have h := C10_casing "SHOCKING news".data "emotional_language"
    [⟨"shocking".data, "...SHOCKING news...".data, 0⟩]
    ⟨"shocking".data, "...SHOCKING news...".data, 0⟩ (by decide) (by decide)
  exact h.1

/-! ### C8 -/

/-- C8: every AI failure mode — missing credential, collaborator fault,
empty response, unparseable output — yields absence, and the analysis
still builds a report whose final score is the pattern-only score. -/
theorem C8_ai_failure_degrades (env : GeminiEnv)
    (h : env = .noKey ∨ env = .callFails ∨ env = .response "" ∨
      ∃ t, env = .response t ∧ jsonLoads t = none) :
    analyze_with_gemini env = none ∧
      ∀ c : Content, ∃ r, analyze_propaganda env c = some r ∧
        r.propaganda_score = (patternScore c.text : ℤ) := by
  have habs : analyze_with_gemini env = none := by
    rcases h with rfl | rfl | rfl | ⟨t, rfl, ht⟩
    · rfl
    · rfl
    · rfl
    · exact gemini_absent_of_loads_none t ht
  refine ⟨habs, fun c => ?_⟩
  unfold analyze_propaganda
  rw [habs]
  exact buildReport_none c

/-- C8 (witness): with the credential missing, the AI result is absent and
a one-word text still gets a full report with its pattern-only score. -/
theorem C8_ai_failure_degrades_witness :
    analyze_with_gemini .noKey = none ∧
      ∃ r, analyze_propaganda .noKey czContent = some r ∧
        r.propaganda_score = (patternScore czContent.text : ℤ) :=
  ⟨(C8_ai_failure_degrades .noKey (Or.inl rfl)).1,
    (C8_ai_failure_degrades .noKey (Or.inl rfl)).2 czContent⟩

/-! ### C7 -/

lemma fuseStep_corr_none (p : Nat) (ai : Option Json)
    (hcorr : ∀ fs, ai = some (.obj fs) → lookupLast fs scKey = none) :
    (fuseStep p ai).2.2 = none := by
  rcases ai with _ | j
  · rfl
  · unfold fuseStep
    dsimp only
    by_cases ht : jsonTruthy j
    · rw [if_pos ht]
      cases j with
      | obj fs =>
        dsimp only
        cases hg : getLikelihood fs p with
        | some q => exact hcorr fs rfl
        | none => rfl
      | null => rfl
      | jbool b => rfl
      | num q => rfl
      | str s => rfl
      | arr xs => rfl
    · rw [if_neg ht]

/-- The band structure of an assembled report whose AI correction is
absent. -/
lemma assemble_bands (c : Content) (fz : ℤ × Json × Option Json) (r : Report)
    (h : assemble c fz = some r) (hc : fz.2.2 = none) :
    (r.propaganda_score < 30 → r.analysis = analysisLow ∧ r.correction = none) ∧
      (30 ≤ r.propaganda_score → r.propaganda_score < 70 →
        r.analysis = analysisMid r.detected_techniques.length ∧
        r.correction = some (.str fallbackMid)) ∧
      (70 ≤ r.propaganda_score →
        r.analysis = analysisHigh r.detected_techniques.length (totalIndicators c.text) ∧
        r.correction = some (.str fallbackHigh)) := by
  unfold assemble at h
  cases hex : extendList fz.2.1 with
  | none =>
    rw [hex] at h
    cases h
  | some ex =>
    rw [hex] at h
    cases Option.some.inj h
    have hcor : pyCorr fz.2.2 = none := by
      rw [hc]
      rfl
    refine ⟨fun h30 => ?_, fun h30 h70 => ?_, fun h70 => ?_⟩
    · have h30' : fz.1 < 30 := h30
      constructor
      · show (bandText fz.1 _ _ (pyCorr fz.2.2)).1 = _
        unfold bandText
        rw [if_pos h30']
      · show (bandText fz.1 _ _ (pyCorr fz.2.2)).2 = none
        unfold bandText
        rw [if_pos h30', hcor]
    · have h30' : ¬fz.1 < 30 := by
        have : (30 : ℤ) ≤ fz.1 := h30
        omega
      have h70' : fz.1 < 70 := h70
      constructor
      · show (bandText fz.1 _ _ (pyCorr fz.2.2)).1 = _
        unfold bandText
        rw [if_neg h30', if_pos h70']
      · show (bandText fz.1 _ _ (pyCorr fz.2.2)).2 = _
        unfold bandText
        rw [if_neg h30', if_pos h70', hcor]
        rfl
    · have h30' : ¬fz.1 < 30 := by
        have : (70 : ℤ) ≤ fz.1 := h70
        omega
      have h70' : ¬fz.1 < 70 := by
        have : (70 : ℤ) ≤ fz.1 := h70
        omega
      constructor
      · show (bandText fz.1 _ _ (pyCorr fz.2.2)).1 = _
        unfold bandText
        rw [if_neg h30', if_neg h70']
      · show (bandText fz.1 _ _ (pyCorr fz.2.2)).2 = _
        unfold bandText
        rw [if_neg h30', if_neg h70', hcor]
        rfl

/-- C7: the score bands of the report are exactly `< 30`, `30 ≤ _ < 70` and
`≥ 70` — a score of exactly 30 is in the moderate band and exactly 70 in
the high band — and with no AI correction present the correction is
absent, the generic "consult multiple sources" text, and the generic
fact-checking text respectively. -/
theorem C7_score_bands (c : Content) (ai : Option Json) (r : Report)
    (hr : buildReport c ai = some r)
    (hcorr : ∀ fs, ai = some (.obj fs) → lookupLast fs scKey = none) :
    (r.propaganda_score < 30 → r.analysis = analysisLow ∧ r.correction = none) ∧
      (30 ≤ r.propaganda_score → r.propaganda_score < 70 →
        r.analysis = analysisMid r.detected_techniques.length ∧
        r.correction = some (.str fallbackMid)) ∧
      (70 ≤ r.propaganda_score →
        r.analysis = analysisHigh r.detected_techniques.length (totalIndicators c.text) ∧
        r.correction = some (.str fallbackHigh)) :=
  assemble_bands c _ r hr (fuseStep_corr_none (patternScore c.text) ai hcorr)

/-- C7 (witness): pattern score 0 fused with AI likelihood 50 gives final
score exactly 30, which lands in the moderate band with the generic
"consult multiple sources" correction. -/
theorem C7_score_bands_witness :
    ∃ r, buildReport czContent (some (.obj [(plKey, .num 50)])) = some r ∧
      r.propaganda_score = 30 ∧
      r.analysis = analysisMid r.detected_techniques.length ∧
      r.correction = some (.str fallbackMid) := by
  obtain ⟨r, hr, hsc⟩ :
      ∃ r, buildReport czContent (some (.obj [(plKey, .num 50)])) = some r ∧
        r.propaganda_score = 30 :=
    ⟨_, rfl, by with_unfolding_all decide⟩
  have h := C7_score_bands czContent (some (.obj [(plKey, .num 50)])) r hr
    (by
      rintro fs hfs
      cases Option.some.inj hfs
      rfl)
  have hmid := h.2.1 (by rw [hsc]) (by rw [hsc]; norm_num)
  exact ⟨r, hr, hsc, hmid.1, hmid.2⟩

/-! ### C4 -/

/-- C4 (counterexample): valid JSON carrying only `propaganda_likelihood`
(3 of 4 fields missing) is not treated as absent: it is parsed, kept, and
its likelihood shifts the fused score from the pattern-only 0 to 27. -/
theorem C4_partial_result_used :
    analyze_with_gemini (.response sC4) = some (.obj [(plKey, .num 45)]) ∧
      lookupLast [(plKey, Json.num 45)] dtKey = none ∧
      lookupLast [(plKey, Json.num 45)] scKey = none ∧
      (buildReport czContent (analyze_with_gemini (.response sC4))).map
          Report.propaganda_score = some 27 ∧
      patternScore czContent.text = 0 := by
  refine ⟨?_, rfl, rfl, ?_, ?_⟩
  · with_unfolding_all rfl
  · with_unfolding_all rfl
  · with_unfolding_all decide

/-- C4 (amended): successfully parsed JSON is consumed however incomplete:
an object carrying only a likelihood is fused with it (its binary64 fused
score as the final score, techniques defaulting to the pattern categories
alone, the correction to absence), and an object with the likelihood
missing defaults it to the pattern score, so the final score is exactly
the pattern score. -/
theorem C4_defaults_spec (c : Content) (q : ℚ) (s : List Char) :
    (∃ r, buildReport c (some (.obj [(plKey, .num q)])) = some r ∧
        r.propaganda_score = pyTrunc (fuseVal (patternScore c.text) q) ∧
        r.detected_techniques =
          ((detailedMatches c.text).map fun pr => Json.str pr.1.data) ∧
        (r.propaganda_score < 30 → r.correction = none)) ∧
      ∃ r, buildReport c (some (.obj [(oaKey, .str s)])) = some r ∧
        r.propaganda_score = (patternScore c.text : ℤ) := by
  constructor
  · refine ⟨_, rfl, rfl, ?_, ?_⟩
    · show ((detailedMatches c.text).map fun pr => Json.str pr.1.data) ++ [] = _
      exact List.append_nil _
    · intro h30
      have h30' :
          (fuseStep (patternScore c.text) (some (Json.obj [(plKey, Json.num q)]))).1 < 30 :=
        h30
      show (bandText _ _ _ (pyCorr none)).2 = none
      unfold bandText
      rw [if_pos h30']
      rfl
  · refine ⟨_, rfl, ?_⟩
    show pyTrunc (fuseVal (patternScore c.text) ((patternScore c.text : ℕ) : ℚ)) =
      (patternScore c.text : ℤ)
    exact fuse_self _ (patternScore_le c.text)

/-- C4 (witness): the amended statement at a concrete one-word content and
likelihood 10 (fused score 6, in the low band, correction absent). -/
theorem C4_defaults_spec_witness :
    ∃ r, buildReport czContent (some (.obj [(plKey, .num 10)])) = some r ∧
      r.propaganda_score = pyTrunc (fuseVal (patternScore czContent.text) 10) ∧
      r.propaganda_score < 30 ∧ r.correction = none := by
  obtain ⟨⟨r, hr, hsc, _, hcor⟩, _⟩ := C4_defaults_spec czContent 10 "ok".data
  have hlt : r.propaganda_score < 30 := by
    rw [hsc]
    with_unfolding_all decide
  exact ⟨r, hr, hsc, hlt, hcor hlt⟩

end DeceptiNot
